import Mathlib

/-!
# Verification of the netvexa RAG core against its specification

Shallow embedding of the algorithmic core of the repository:
chunking strategies (`backend/rag/chunking_strategies.py`), the hybrid
search score combination and BM25 scoring (`backend/rag/hybrid_search.py`),
the caching embedding decorator (`backend/embedding_providers.py`), the
LLM fallback decorator (`backend/llm_providers.py`) and the ingestion /
response orchestration (`backend/rag/production_rag_engine.py`).

External collaborators (database, Redis, the numeric model providers,
`nltk.sent_tokenize`, `tiktoken`) are modelled as parameters: the pure
control flow and arithmetic of the repository's own code is translated
directly.  Machine floats are modelled as `ℚ` where the code only does
field arithmetic, and as `ℝ` where `math.log` is involved (BM25).
-/

set_option maxRecDepth 4096

namespace Netvexa

/-! ## Python string primitives used by the code

`str.split()`, `str.strip()`, `str.lower()`, the `re.sub(r'[^\w\s]', ' ', _)`
normalisation and substring containment (`tok in content`), all restricted
to ASCII as exercised by the code's token logic. -/

/-- The characters Python's `str.split()` / `str.strip()` treat as whitespace. -/
def isPyWs (c : Char) : Bool :=
  c = ' ' || c = '\t' || c = '\n' || c = '\r' || c = '\x0b' || c = '\x0c'

/-- A `\w` regex character: alphanumeric or underscore (ASCII model). -/
def isWordChar (c : Char) : Bool :=
  c.isAlphanum || c = '_'

/-- ASCII lowercasing of one character, as `str.lower()` does. -/
def lowerChar (c : Char) : Char :=
  if 'A' ≤ c && c ≤ 'Z' then Char.ofNat (c.toNat + 32) else c

/-- `s.lower()` (ASCII model). -/
def pyLower (s : String) : String :=
  String.mk (s.data.map lowerChar)

/-- `re.sub(r'[^\w\s]', ' ', s)`: every character that is neither a word
character nor whitespace becomes a space. -/
def reSubNonWord (s : String) : String :=
  String.mk (s.data.map (fun c => if isWordChar c || isPyWs c then c else ' '))

/-- Worker for `pySplitWs`: split a character list on whitespace runs,
dropping empty pieces, with `cur` the (reversed) pending word. -/
def splitWsAux : List Char → List Char → List String
  | [], cur => if cur = [] then [] else [String.mk cur.reverse]
  | c :: rest, cur =>
    if isPyWs c then
      if cur = [] then splitWsAux rest []
      else String.mk cur.reverse :: splitWsAux rest []
    else splitWsAux rest (c :: cur)

/-- `s.split()` with no argument: split on whitespace runs, no empty parts. -/
def pySplitWs (s : String) : List String :=
  splitWsAux s.data []

/-- `s.strip()`: drop leading and trailing whitespace. -/
def pyStrip (s : String) : String :=
  String.mk (((s.data.dropWhile (isPyWs ·)).reverse.dropWhile (isPyWs ·)).reverse)

/-- Worker for `pySplitNl`: split at every `'\n'`, keeping empty parts
(`''.split('\n') == ['']`). -/
def splitNlAux : List Char → List Char → List String
  | [], cur => [String.mk cur.reverse]
  | c :: rest, cur =>
    if c = '\n' then String.mk cur.reverse :: splitNlAux rest []
    else splitNlAux rest (c :: cur)

/-- `s.split('\n')`. -/
def pySplitNl (s : String) : List String :=
  splitNlAux s.data []

/-- Worker for `strContains`: does `needle` occur as a contiguous sublist? -/
def subLoop (needle : List Char) : List Char → Bool
  | [] => needle.isPrefixOf []
  | c :: rest => needle.isPrefixOf (c :: rest) || subLoop needle rest

/-- Python's `needle in hay` substring test. -/
def strContains (hay needle : String) : Bool :=
  subLoop needle.data hay.data

/-- The stop-word list of `HybridSearchEngine._tokenize`. -/
def stopWords : List String :=
  ["the", "is", "at", "which", "on", "a", "an", "and", "or",
   "but", "in", "with", "to", "for", "of", "as", "by", "that",
   "this", "it", "from", "be", "are", "been", "was", "were"]

/-- `HybridSearchEngine._tokenize`: replace `[^\w\s]` by spaces, lowercase,
split on whitespace, and keep tokens that are not stop words and are longer
than 2 characters. -/
def pyTokenize (s : String) : List String :=
  (pySplitWs (pyLower (reSubNonWord s))).filter
    (fun t => !stopWords.contains t && decide (2 < t.length))

/-! ## LLM provider fallback (`llm_providers.py`, `LLMProviderWithFallback.complete`)

A provider call on a fixed prompt is modelled by its outcome
`Except String String` (an exception message or the completion text).
The decorator's control flow is translated directly. -/

/-- The two failure shapes `complete` can surface: re-raising a provider's
own exception, or the final `Exception("All LLM providers failed")`. -/
inductive CompletionError where
  | providerError (msg : String)
  | allProvidersFailed
  deriving DecidableEq, Repr

/-- `settings.ENABLE_FALLBACK` (default `True` in `config.py`). -/
def settingsEnableFallback : Bool := true

/-- The fallback loop of `LLMProviderWithFallback.complete`: try each
secondary provider in order, return the first success, raise
`AllProvidersFailed` when the list is exhausted. -/
def tryFallbacks : List (Except String String) → Except CompletionError String
  | [] => .error .allProvidersFailed
  | p :: ps =>
    match p with
    | .ok r => .ok r
    | .error _ => tryFallbacks ps

/-- `LLMProviderWithFallback.complete`: try the primary provider; on failure
re-raise if fallback is disabled, otherwise run the fallback loop. -/
def completeWithFallback (enableFallback : Bool)
    (primary : Except String String)
    (fallbacks : List (Except String String)) : Except CompletionError String :=
  match primary with
  | .ok r => .ok r
  | .error e =>
    if !enableFallback then .error (.providerError e)
    else tryFallbacks fallbacks

/-! ## Caching embedding decorator (`embedding_providers.py`, `CachedEmbeddingProvider`)

The cache (Redis) and the wrapped provider are external collaborators,
modelled by their per-call outcomes.  A cache read either succeeds with a
hit or a miss, or fails; the code absorbs read and write failures. -/

/-- An embedding vector (the code passes `List[float]` around). -/
abbrev Emb := List ℚ

/-- `settings.ENABLE_CACHE` (default `True` in `config.py`). -/
def settingsEnableCache : Bool := true

/-- `CachedEmbeddingProvider.embed_text`: bypass when caching is disabled;
try the cache (read failures absorbed, treated as a miss), call the
provider on a miss, then best-effort write the cache (write outcome
ignored) and return the provider's embedding. -/
def cachedEmbedText (enabled : Bool)
    (cacheGet : String → Except String (Option Emb))
    (cacheSet : String → Emb → Except String Unit)
    (provider : String → Except String Emb)
    (text : String) : Except String Emb :=
  if !enabled then provider text
  else
    match cacheGet text with
    | .ok (some v) => .ok v
    | .ok none =>
      match provider text with
      | .error e => .error e
      | .ok emb =>
        match cacheSet text emb with
        | _ => .ok emb
    | .error _ =>
      match provider text with
      | .error e => .error e
      | .ok emb =>
        match cacheSet text emb with
        | _ => .ok emb

/-- The cache-scan pass of `embed_texts`: one slot per input text, `some v`
for a cache hit, `none` for a miss or an (absorbed) read failure. -/
def cacheSlots (cacheGet : String → Except String (Option Emb))
    (texts : List String) : List (Option Emb) :=
  texts.map (fun t =>
    match cacheGet t with
    | .ok (some v) => some v
    | _ => none)

/-- Does a text land in the `uncached_texts` list?  (miss or read failure). -/
def isUncached (cacheGet : String → Except String (Option Emb)) (t : String) : Bool :=
  match cacheGet t with
  | .ok (some _) => false
  | _ => true

/-- The write-back loop `for i, embedding in zip(uncached_indices,
new_embeddings): embeddings[i] = embedding`: fill the `none` slots in
position order from the freshly computed batch, truncating like `zip`
if the batch is too short. -/
def fillSlots : List (Option Emb) → List Emb → List (Option Emb)
  | [], _ => []
  | none :: rest, e :: es => some e :: fillSlots rest es
  | none :: rest, [] => none :: fillSlots rest []
  | some v :: rest, es => some v :: fillSlots rest es

/-- `CachedEmbeddingProvider.embed_texts`: scan the cache, batch-embed the
uncached texts in one provider call, and write the results back into their
original positions.  (Cache writes in the write-back loop are best-effort
and do not influence the returned value; they are omitted here.)  The
returned list has `Option` slots because the Python list keeps `None`
in any position the write-back did not reach. -/
def cachedEmbedTexts (enabled : Bool)
    (cacheGet : String → Except String (Option Emb))
    (providerBatch : List String → Except String (List Emb))
    (texts : List String) : Except String (List (Option Emb)) :=
  if !enabled then
    match providerBatch texts with
    | .error e => .error e
    | .ok es => .ok (es.map some)
  else
    if texts.filter (isUncached cacheGet) = [] then
      .ok (cacheSlots cacheGet texts)
    else
      match providerBatch (texts.filter (isUncached cacheGet)) with
      | .error e => .error e
      | .ok es => .ok (fillSlots (cacheSlots cacheGet texts) es)

/-! ## Ingestion pipeline (`production_rag_engine.py`)

`ingest_document` chunks the parsed document and processes the chunk list
in batches of 10.  `_process_chunk_batch` embeds the whole batch in one
provider call; if that call raises, the whole batch is counted as failed
and ingestion continues with the next batch.  On success each chunk of the
batch is persisted under its own `try`, counting per-chunk outcomes.
Parsing and chunk construction are upstream of the claims; ingestion is
modelled from the chunk-text list on. -/

/-- `DocumentIngestionResult` (the counters relevant to the claims;
`document_ids` is kept as a count and `processing_time` is wall-clock,
outside the model). -/
structure DocumentIngestionResult where
  total_documents : Nat := 0
  total_chunks : Nat := 0
  successful_chunks : Nat := 0
  failed_chunks : Nat := 0
  errors : List String := []
  deriving DecidableEq, Repr

/-- The body of the per-chunk persistence loop of `_process_chunk_batch`:
persisting one chunk under its own `try` counts a success or a failure
(recording the chunk error). -/
def persistStep (persistChunk : String → Except String Unit)
    (r : DocumentIngestionResult) (ce : String × Emb) : DocumentIngestionResult :=
  match persistChunk ce.1 with
  | .ok _ => { r with successful_chunks := r.successful_chunks + 1 }
  | .error e =>
    { r with
      failed_chunks := r.failed_chunks + 1,
      errors := r.errors ++ ["Chunk: " ++ e] }

/-- `_process_chunk_batch`: one embedding call for the whole batch; on
failure mark every chunk of the batch failed and record one batch error;
on success persist chunk/embedding pairs (`zip`) with per-chunk
accounting, then `await db.commit()`.  A commit failure lands in the same
outer `except`, which adds `len(chunks)` to `failed_chunks` on top of the
successes the per-chunk loop has already counted — double-counting the
batch.  (A failure acquiring the db session before the loop takes the
same outer `except` with no per-chunk counts, which is count-wise the
embedding-failure branch.) -/
def processChunkBatch (embedTexts : List String → Except String (List Emb))
    (persistChunk : String → Except String Unit)
    (commitBatch : List String → Except String Unit)
    (batch : List String)
    (result : DocumentIngestionResult) : DocumentIngestionResult :=
  match embedTexts batch with
  | .error e =>
    { result with
      failed_chunks := result.failed_chunks + batch.length,
      errors := result.errors ++ ["Batch processing error: " ++ e] }
  | .ok embs =>
    match commitBatch batch with
    | .ok _ => (batch.zip embs).foldl (persistStep persistChunk) result
    | .error e =>
      { (batch.zip embs).foldl (persistStep persistChunk) result with
        failed_chunks :=
          ((batch.zip embs).foldl (persistStep persistChunk)
            result).failed_chunks + batch.length,
        errors :=
          ((batch.zip embs).foldl (persistStep persistChunk)
            result).errors ++ ["Batch processing error: " ++ e] }

/-- The number of extra (double-counted) chunks a batch contributes: the
post-loop commit failing re-counts the whole batch as failed after its
successes were already counted. -/
def batchExtraCount (embedTexts : List String → Except String (List Emb))
    (commitBatch : List String → Except String Unit)
    (b : List String) : Nat :=
  match embedTexts b, commitBatch b with
  | .ok _, .error _ => b.length
  | _, _ => 0

/-- Fuel-indexed worker for `toBatches`; the fuel is the list length, so
the fuel-exhausted branch is never taken for positive batch size. -/
def toBatchesAux (n : Nat) : Nat → List String → List (List String)
  | _, [] => []
  | 0, _ :: _ => []
  | fuel + 1, x :: xs =>
    (x :: xs.take (n - 1)) :: toBatchesAux n fuel (xs.drop (n - 1))

/-- The slicing loop `for i in range(0, len(chunks), batch_size):
chunks[i:i+batch_size]`. -/
def toBatches (n : Nat) (l : List String) : List (List String) :=
  toBatchesAux n l.length l

/-- The Google provider's `embed_texts`: `asyncio.gather` over per-item
`embed_text` calls — any single item failure raises for the whole batch. -/
def gatherEmbed (f : String → Except String Emb) : List String → Except String (List Emb)
  | [] => .ok []
  | t :: ts =>
    match f t with
    | .error e => .error e
    | .ok v =>
      match gatherEmbed f ts with
      | .error e => .error e
      | .ok vs => .ok (v :: vs)

/-- The batching loop of `ingest_document` (from the chunk list on):
process the chunks in batches of 10, threading the accumulated result.
The surrounding `try` means the function never raises. -/
def ingestChunks (embedTexts : List String → Except String (List Emb))
    (persistChunk : String → Except String Unit)
    (commitBatch : List String → Except String Unit)
    (chunks : List String) : DocumentIngestionResult :=
  (toBatches 10 chunks).foldl
    (fun r b => processChunkBatch embedTexts persistChunk commitBatch b r)
    { total_documents := 1, total_chunks := chunks.length }

/-! ## Chunking strategies (`chunking_strategies.py`)

Chunkers return the ordered list of chunk texts.  The per-chunk metadata
record of `_create_chunk` carries a random UUID and values derived from
the text (`token_count = count_tokens(text)`, word count, offsets); claims
about token counts are stated through the tokenizer applied to the text.
`tiktoken` (`count_tokens`) and `nltk.sent_tokenize` are external
capabilities, passed as the parameters `tok` and `sentTok`. -/

/-- `' '.join(l)`. -/
def joinSp (l : List String) : String :=
  String.intercalate " " l

/-- `'\n\n'.join(l)`. -/
def joinPara (l : List String) : String :=
  String.intercalate "\n\n" l

/-- `'\n'.join(l)`. -/
def joinLines (l : List String) : String :=
  String.intercalate "\n" l

/-- The overlap scan of `SentenceChunker.chunk`: walk the just-flushed
chunk's sentences from the end, collecting while the running token total
stays within `chunk_overlap`, stopping at the first sentence that does
not fit. -/
def overlapLoop (tok : String → Nat) (ov : Nat) :
    List String → List String → Nat → List String × Nat
  | [], acc, t => (acc, t)
  | s :: rest, acc, t =>
    if t + tok s ≤ ov then overlapLoop tok ov rest (s :: acc) (t + tok s)
    else (acc, t)

/-- `overlap_sentences` and `overlap_tokens` for a flushed chunk `cur`. -/
def overlapTail (tok : String → Nat) (ov : Nat) (cur : List String) :
    List String × Nat :=
  overlapLoop tok ov cur.reverse [] 0

/-- The oversized-sentence word loop of `SentenceChunker.chunk`: greedy
accumulation of words (token-counted as `word + ' '`).  Note the mirrored
quirk: when the pending word chunk is empty and the word alone overflows,
the word falls through both branches and is dropped. -/
def wordSplitLoop (tok : String → Nat) (cs : Nat) :
    List String → List String → Nat → List String → List String
  | [], cur, _, acc => if cur = [] then acc else acc ++ [joinSp cur]
  | w :: ws, cur, ct, acc =>
    if cs < ct + tok (w ++ " ") then
      if cur = [] then wordSplitLoop tok cs ws cur ct acc
      else wordSplitLoop tok cs ws [w] (tok (w ++ " ")) (acc ++ [joinSp cur])
    else wordSplitLoop tok cs ws (cur ++ [w]) (ct + tok (w ++ " ")) acc

/-- `chunks.append(...)` of a pending chunk when it is non-empty
(space-joined, as `SentenceChunker` does). -/
def flushSp (chunks cur : List String) : List String :=
  if cur = [] then chunks else chunks ++ [joinSp cur]

/-- The sentence loop of `SentenceChunker.chunk` over the `sent_tokenize`
output: oversized sentences flush the pending chunk and are word-split;
otherwise sentences accumulate, flushing (with optional overlap carry-over)
when the pending chunk would overflow.  The trailing chunk is emitted only
when its token count reaches `min_chunk_size`. -/
def sentenceLoop (tok : String → Nat) (cs ov m : Nat) :
    List String → List String → List String → Nat → List String
  | [], chunks, cur, _ =>
    if cur = [] then chunks
    else if m ≤ tok (joinSp cur) then chunks ++ [joinSp cur] else chunks
  | s :: rest, chunks, cur, ct =>
    if cs < tok s then
      sentenceLoop tok cs ov m rest
        (flushSp chunks cur ++ wordSplitLoop tok cs (pySplitWs s) [] 0 []) [] 0
    else if cs < ct + tok s then
      if 0 < ov ∧ flushSp chunks cur ≠ [] then
        sentenceLoop tok cs ov m rest (flushSp chunks cur)
          ((overlapTail tok ov cur).1 ++ [s]) ((overlapTail tok ov cur).2 + tok s)
      else sentenceLoop tok cs ov m rest (flushSp chunks cur) [s] (tok s)
    else sentenceLoop tok cs ov m rest chunks (cur ++ [s]) (ct + tok s)

/-- `SentenceChunker.chunk` (chunk texts, in order). -/
def sentenceChunk (tok : String → Nat) (sentTok : String → List String)
    (cs ov m : Nat) (text : String) : List String :=
  sentenceLoop tok cs ov m (sentTok text) [] [] 0

/-- Index of the last `'\n'` inside a character list, if any. -/
def lastNlIdx (l : List Char) : Option Nat :=
  (l.reverse.findIdx? (· = '\n')).map (fun k => l.length - 1 - k)

/-- Worker for `re.split(r'\n\s*\n', text)`: at each `'\n'` whose following
maximal whitespace run contains another `'\n'`, the (greedy, backtracking)
pattern consumes up to and including the last `'\n'` of that run and a
split occurs; other characters accumulate into the current part.  The
fuel argument (instantiated with the input length, which bounds the
recursion depth) keeps the recursion structural. -/
def splitParasAux : Nat → List Char → List Char → List (List Char)
  | _, [], acc => [acc.reverse]
  | 0, l, acc => [acc.reverse ++ l]
  | fuel + 1, c :: rest, acc =>
    if c = '\n' then
      match lastNlIdx (rest.takeWhile (isPyWs ·)) with
      | some i => acc.reverse :: splitParasAux fuel (rest.drop (i + 1)) []
      | none => splitParasAux fuel rest (c :: acc)
    else splitParasAux fuel rest (c :: acc)

/-- `re.split(r'\n\s*\n', text)`: the paragraph split of `SemanticChunker`. -/
def splitParas (s : String) : List String :=
  (splitParasAux s.data.length s.data []).map String.mk

/-- `chunks.append(...)` of a pending chunk when it is non-empty
(paragraph-joined with `'\n\n'`, as `SemanticChunker` does). -/
def flushPara (chunks cur : List String) : List String :=
  if cur = [] then chunks else chunks ++ [joinPara cur]

/-- The paragraph loop of `SemanticChunker.chunk`: stripped-empty
paragraphs are skipped; an oversized paragraph flushes the pending chunk
and is delegated to a `SentenceChunker` with the same parameters;
otherwise paragraphs accumulate with overflow flushes.  The trailing chunk
is emitted only when its token count reaches `min_chunk_size`. -/
def semanticLoop (tok : String → Nat) (sentTok : String → List String)
    (cs ov m : Nat) :
    List String → List String → List String → Nat → List String
  | [], chunks, cur, _ =>
    if cur = [] then chunks
    else if m ≤ tok (joinPara cur) then chunks ++ [joinPara cur] else chunks
  | p :: rest, chunks, cur, ct =>
    if pyStrip p = "" then semanticLoop tok sentTok cs ov m rest chunks cur ct
    else if cs < tok (pyStrip p) then
      semanticLoop tok sentTok cs ov m rest
        (flushPara chunks cur ++
          sentenceLoop tok cs ov m (sentTok (pyStrip p)) [] [] 0) [] 0
    else if cs < ct + tok (pyStrip p) then
      semanticLoop tok sentTok cs ov m rest (flushPara chunks cur)
        [pyStrip p] (tok (pyStrip p))
    else
      semanticLoop tok sentTok cs ov m rest chunks (cur ++ [pyStrip p])
        (ct + tok (pyStrip p))

/-- `SemanticChunker.chunk` (chunk texts, in order). -/
def semanticChunk (tok : String → Nat) (sentTok : String → List String)
    (cs ov m : Nat) (text : String) : List String :=
  semanticLoop tok sentTok cs ov m (splitParas text) [] [] 0

/-- The line loop of `CodeChunker._chunk_by_lines`: greedy accumulation of
lines (token-counted as `line + '\n'`), flushing on overflow when the
pending chunk is non-empty; the trailing chunk is always emitted when the
pending line list is non-empty (which it is for every input, since
`text.split('\n')` is never empty). -/
def codeLinesLoop (tok : String → Nat) (cs : Nat) :
    List String → List String → Nat → List String → List String
  | [], cur, _, acc => if cur = [] then acc else acc ++ [joinLines cur]
  | line :: rest, cur, ct, acc =>
    if cs < ct + tok (line ++ "\n") ∧ cur ≠ [] then
      codeLinesLoop tok cs rest [line] (tok (line ++ "\n")) (acc ++ [joinLines cur])
    else codeLinesLoop tok cs rest (cur ++ [line]) (ct + tok (line ++ "\n")) acc

/-- `CodeChunker._chunk_by_lines` (chunk texts, in order). -/
def codeChunkByLines (tok : String → Nat) (cs : Nat) (text : String) :
    List String :=
  codeLinesLoop tok cs (pySplitNl text) [] 0 []

/-! ## Hybrid search score combination (`hybrid_search.py`)

`_vector_search` and `_keyword_search` are database queries returning
`(document, score)` pairs; they are modelled by their results: lists of
`(document_id, score)` pairs (a vector score is `1 - cosine_distance`,
hence any value in `[-1, 1]`; a keyword score is a BM25 value, any real).
Scores are modelled as `ℚ` (the combination step is pure field
arithmetic).  Python `dict` semantics: key order is first insertion,
a repeated key keeps its position and takes the last value. -/

/-- A combined search result (`SearchResult` fields the claims are about;
`content`, `metadata` and `highlights` are copied/derived payload). -/
structure CombinedResult where
  document_id : String
  vector_score : ℚ
  keyword_score : ℚ
  combined_score : ℚ
  deriving DecidableEq, Repr

/-- `{doc.id: score for doc, score in results}` lookup: the value is the
last pair with the given id (dict overwrite semantics). -/
def lookupLast (l : List (String × ℚ)) (id : String) : Option ℚ :=
  (l.reverse.find? (fun p => p.1 = id)).map Prod.snd

/-- Python dict key order: ids in first-insertion order, without repeats. -/
def dedupIds (l : List String) : List String :=
  l.foldl (fun acc i => if i ∈ acc then acc else acc ++ [i]) []

/-- `max` of a non-empty list of rationals via `foldl`. -/
def listMax : List ℚ → ℚ
  | [] => 1
  | x :: xs => xs.foldl max x

/-- The values of the score dict built from `l`, in key order. -/
def dictValues (l : List (String × ℚ)) : List ℚ :=
  (dedupIds (l.map Prod.fst)).map (fun i => (lookupLast l i).getD 0)

/-- `max(scores.values()) if scores else 1.0`. -/
def maxScore (l : List (String × ℚ)) : ℚ :=
  if l = [] then 1 else listMax (dictValues l)

/-- The `__init__` weight renormalisation: keep the weights when they sum
to 1, otherwise divide each by the total. -/
def normWeights (vw kw : ℚ) : ℚ × ℚ :=
  if vw + kw = 1 then (vw, kw) else (vw / (vw + kw), kw / (vw + kw))

/-- The key order of `all_docs` (vector results first, then keyword
results, first insertion wins). -/
def allIds (vres kres : List (String × ℚ)) : List String :=
  dedupIds ((vres ++ kres).map Prod.fst)

/-- `_combine_results` with already-renormalised weights: normalise each
signal by its own maximum (missing documents score 0) and blend. -/
def combineResults (vw kw : ℚ) (vres kres : List (String × ℚ)) :
    List CombinedResult :=
  (allIds vres kres).map (fun id =>
    let vs := (lookupLast vres id).getD 0 / maxScore vres
    let ks := (lookupLast kres id).getD 0 / maxScore kres
    { document_id := id
      vector_score := vs
      keyword_score := ks
      combined_score := vw * vs + kw * ks })

/-- Stable descending insertion: place the new element after every element
whose key is not smaller (Python `list.sort(reverse=True)` is stable). -/
def insertDesc (r : CombinedResult) : List CombinedResult → List CombinedResult
  | [] => [r]
  | x :: xs =>
    if x.combined_score < r.combined_score then r :: x :: xs
    else x :: insertDesc r xs

/-- Stable sort by `combined_score`, descending. -/
def sortByCombined (l : List CombinedResult) : List CombinedResult :=
  l.foldl (fun acc r => insertDesc r acc) []

/-- `HybridSearchEngine.search` from the two retrieval result lists on:
renormalise the constructor weights, combine, sort by combined score
descending, return the top `k`. -/
def hybridSearch (vw kw : ℚ) (vres kres : List (String × ℚ)) (k : Nat) :
    List CombinedResult :=
  (sortByCombined (combineResults (normWeights vw kw).1 (normWeights vw kw).2
    vres kres)).take k

/-- Stable descending insertion on raw `(id, score)` pairs. -/
def insertDescPair (r : String × ℚ) : List (String × ℚ) → List (String × ℚ)
  | [] => [r]
  | x :: xs => if x.2 < r.2 then r :: x :: xs else x :: insertDescPair r xs

/-- Pure single-signal ranking: the candidate ids sorted by their raw
score, descending (the spec's "pure vector ranking" / "pure keyword
ranking" over the same candidates). -/
def pureRanking (res : List (String × ℚ)) : List String :=
  (res.foldl (fun acc r => insertDescPair r acc) []).map Prod.fst

/-! ## BM25 keyword scoring (`hybrid_search.py`, `_calculate_bm25_score`)

Corpus statistics are computed over the candidate pool passed in
(`all_documents`, modelled by the list of their content strings).
The logarithm forces `ℝ`; every other quantity is a rational computed
from the strings. -/

/-- `np.mean([len(self._tokenize(doc.content)) for doc in all_documents])`,
kept in `ℚ`. -/
def avgDocLen (pool : List String) : ℚ :=
  ((pool.map (fun d => ((pyTokenize d).length : ℚ))).sum) / (pool.length : ℚ)

/-- `df`: how many pool documents contain the token as a substring of
their lowercased content. -/
def docFreq (pool : List String) (t : String) : Nat :=
  (pool.filter (fun d => strContains (pyLower d) t)).length

/-- One term's BM25 contribution (for a term with positive frequency). -/
noncomputable def bm25Term (k1 b : ℝ) (pool : List String) (dl : ℝ)
    (t : String) (tf : Nat) : ℝ :=
  Real.log (((pool.length : ℝ) - (docFreq pool t : ℝ) + 0.5) /
      ((docFreq pool t : ℝ) + 0.5)) *
    ((tf : ℝ) * (k1 + 1)) /
    ((tf : ℝ) + k1 * (1 - b + b * dl / (avgDocLen pool : ℝ)))

/-- `_calculate_bm25_score`: 0 for a token-free document, otherwise the
sum over query tokens of the BM25 contribution, skipping absent tokens. -/
noncomputable def bm25Score (k1 b : ℝ) (pool : List String)
    (queryTokens : List String) (content : String) : ℝ :=
  if pyTokenize content = [] then 0
  else
    queryTokens.foldl
      (fun acc t =>
        if (pyTokenize content).count t = 0 then acc
        else acc +
          bm25Term k1 b pool ((pyTokenize content).length : ℝ) t
            ((pyTokenize content).count t))
      0

/-! ## Response orchestration (`production_rag_engine.py`, `generate_response`)

`self.search` absorbs every internal failure (embedding of the query, the
database searches) and returns `[]`; the body of `generate_response` runs
under a `try` whose handler returns the apology response with the error
string under the `'error'` metadata key.  A rich-content failure falls
back to plain text without entering the outer handler.  Steps are
modelled by their outcomes. -/

/-- The fields of `ChatResponse` the claims are about: the content
payload, the `'error'` metadata entry (absent on success) and the
`source_documents` metadata count. -/
structure ChatResponseM where
  content : String
  errorMeta : Option String
  sourceDocuments : Nat
  deriving DecidableEq, Repr

/-- The literal apology text of the `except` handler. -/
def apologyText : String :=
  "I apologize, but I encountered an error processing your request. Please try again."

/-- `ProductionRAGEngine.search` as seen by `generate_response`: the
search pipeline's outcome with every failure absorbed into `[]`. -/
def searchStep (searchOutcome : Except String (List String)) : List String :=
  match searchOutcome with
  | .ok r => r
  | .error _ => []

/-- The plain-text fallback wrapper used when rich-content generation
fails (the payload of the `rich_message` envelope). -/
def plainWrap (text : String) : String :=
  "rich_message:" ++ text

/-- The body of `generate_response`'s `try` block: search (failures
degrade to no results), build context and prompt (pure), call the
fallback-wrapped completion (its failure propagates to the handler),
then wrap in rich content, itself falling back to plain text. -/
def generateResponseBody (searchOutcome : Except String (List String))
    (completion : Except String String)
    (rich : String → Except String String) : Except String ChatResponseM :=
  match completion with
  | .error e => .error e
  | .ok text =>
    .ok
      { content := match rich text with
          | .ok rc => rc
          | .error _ => plainWrap text
        errorMeta := none
        sourceDocuments := (searchStep searchOutcome).length }

/-- `generate_response`: the `try` body, with the `except` handler
producing the apology response carrying the error under `'error'`. -/
def generateResponse (searchOutcome : Except String (List String))
    (completion : Except String String)
    (rich : String → Except String String) : ChatResponseM :=
  match generateResponseBody searchOutcome completion rich with
  | .ok r => r
  | .error e => { content := apologyText, errorMeta := some e, sourceDocuments := 0 }

/-! ## Helper lemmas -/

/-- The fallback loop succeeds whenever some provider in the list succeeds. -/
theorem tryFallbacks_ok {fallbacks : List (Except String String)} {r : String}
    (h : Except.ok r ∈ fallbacks) : ∃ v, tryFallbacks fallbacks = .ok v := by
  induction fallbacks with
  | nil => cases h
  | cons p ps ih =>
    cases p with
    | ok v => exact ⟨v, rfl⟩
    | error e =>
      rw [List.mem_cons] at h
      rcases h with h | h
      · cases h
      · exact ih h

/-- The fallback loop raises `AllProvidersFailed` exactly when no provider
in the list succeeds. -/
theorem tryFallbacks_failed_iff (fallbacks : List (Except String String)) :
    tryFallbacks fallbacks = .error .allProvidersFailed ↔
      ∀ r, Except.ok r ∉ fallbacks := by
  induction fallbacks with
  | nil => simp [tryFallbacks]
  | cons p ps ih =>
    cases p with
    | ok v =>
      constructor
      · intro h; cases h
      · intro h; exact absurd (List.mem_cons_self _ _) (h v)
    | error e =>
      rw [show tryFallbacks (Except.error e :: ps) = tryFallbacks ps from rfl, ih]
      constructor
      · intro h r hr
        rw [List.mem_cons] at hr
        rcases hr with hr | hr
        · cases hr
        · exact h r hr
      · intro h r hr
        exact h r (List.mem_cons_of_mem _ hr)

/-- C6: with the default `ENABLE_FALLBACK=True` configuration, when the
primary provider raises, `complete` succeeds whenever some provider in the
ordered fallback list succeeds, and it raises `AllProvidersFailed` exactly
when every fallback provider fails. -/
theorem claim_c6_fallback (primary : Except String String)
    (fallbacks : List (Except String String)) (e : String)
    (hp : primary = Except.error e) :
    ((∃ r, Except.ok r ∈ fallbacks) →
      ∃ r, completeWithFallback settingsEnableFallback primary fallbacks = .ok r) ∧
    (completeWithFallback settingsEnableFallback primary fallbacks =
        .error .allProvidersFailed ↔ ∀ r, Except.ok r ∉ fallbacks) := by
  subst hp
  constructor
  · rintro ⟨r, hr⟩
    exact tryFallbacks_ok hr
  · exact tryFallbacks_failed_iff fallbacks

/-- C6 witness: a failing primary with one failing and one succeeding
fallback still completes. -/
theorem claim_c6_fallback_witness :
    ∃ r, completeWithFallback settingsEnableFallback (.error "rate limited")
      [.error "quota exhausted", .ok "Here is the answer."] = .ok r :=
  (claim_c6_fallback (.error "rate limited")
      [.error "quota exhausted", .ok "Here is the answer."] "rate limited" rfl).1
    ⟨"Here is the answer.", by simp⟩

/-- C7: cache failures are absorbed by the caching decorator.  A failed
cache read still returns the provider's embedding; the cache-write outcome
never influences the returned value (stated as: the result is the same for
any two write behaviours); and the batch call succeeds whenever the
underlying batch provider succeeds, whatever the cache reads do. -/
theorem claim_c7_cache_best_effort
    (cacheGet : String → Except String (Option Emb))
    (provider : String → Except String Emb) :
    (∀ cacheSet text v ce, provider text = .ok v → cacheGet text = .error ce →
      cachedEmbedText settingsEnableCache cacheGet cacheSet provider text = .ok v) ∧
    (∀ set1 set2 text,
      cachedEmbedText settingsEnableCache cacheGet set1 provider text =
        cachedEmbedText settingsEnableCache cacheGet set2 provider text) ∧
    (∀ (providerBatch : List String → Except String (List Emb)) texts,
      (∀ ts, ∃ es, providerBatch ts = .ok es) →
      ∃ out, cachedEmbedTexts settingsEnableCache cacheGet providerBatch texts
        = .ok out) := by
  refine ⟨?_, ?_, ?_⟩
  · intro cacheSet text v ce hp hg
    unfold cachedEmbedText settingsEnableCache
    rw [hg, hp]
    cases cacheSet text v <;> rfl
  · intro set1 set2 text
    unfold cachedEmbedText settingsEnableCache
    cases cacheGet text with
    | error e =>
      cases provider text with
      | error e' => rfl
      | ok emb => cases set1 text emb <;> cases set2 text emb <;> rfl
    | ok o =>
      cases o with
      | none =>
        cases provider text with
        | error e' => rfl
        | ok emb => cases set1 text emb <;> cases set2 text emb <;> rfl
      | some v => rfl
  · intro providerBatch texts hb
    unfold cachedEmbedTexts settingsEnableCache
    by_cases hf : texts.filter (isUncached cacheGet) = []
    · rw [if_pos hf]
      exact ⟨_, rfl⟩
    · rw [if_neg hf]
      rcases hb (texts.filter (isUncached cacheGet)) with ⟨es, hes⟩
      rw [hes]
      exact ⟨_, rfl⟩

/-- C7 witness: a read failure on the only text still returns the
provider's embedding. -/
theorem claim_c7_cache_best_effort_witness :
    cachedEmbedText settingsEnableCache (fun _ => .error "redis unavailable")
      (fun _ _ => .ok ()) (fun _ => .ok [1, 2]) "pricing" = .ok [1, 2] :=
  (claim_c7_cache_best_effort (fun _ => .error "redis unavailable")
      (fun _ => .ok [1, 2])).1 (fun _ _ => .ok ()) "pricing" [1, 2]
    "redis unavailable" rfl rfl

/-- The write-back loop fills every missed slot with the provider
embedding of the text at that position. -/
theorem fillSlots_spec (cacheGet : String → Except String (Option Emb))
    (E : String → Emb)
    (hcache : ∀ t v, cacheGet t = .ok (some v) → v = E t) :
    ∀ texts : List String,
      fillSlots (cacheSlots cacheGet texts)
        ((texts.filter (isUncached cacheGet)).map E) =
      texts.map (fun t => some (E t)) := by
  intro texts
  induction texts with
  | nil => rfl
  | cons t rest ih =>
    simp only [cacheSlots, List.map_cons, List.filter_cons]
    cases hg : cacheGet t with
    | error e =>
      simp only [isUncached, hg, if_true, List.map_cons, fillSlots]
      exact congrArg _ ih
    | ok o =>
      cases o with
      | none =>
        simp only [isUncached, hg, if_true, List.map_cons, fillSlots]
        exact congrArg _ ih
      | some v =>
        simp only [isUncached, hg, Bool.false_eq_true, if_false, fillSlots,
          hcache t v hg]
        exact congrArg _ ih

/-- C10: `embed_texts` returns one embedding per input text, in input
order: cache hits keep their value (assumed to be that text's embedding),
the misses are embedded in a single batch call and written back into
their original positions. -/
theorem claim_c10_embed_texts_positional
    (cacheGet : String → Except String (Option Emb)) (E : String → Emb)
    (texts : List String)
    (hcache : ∀ t v, cacheGet t = .ok (some v) → v = E t) :
    cachedEmbedTexts settingsEnableCache cacheGet (fun ts => .ok (ts.map E)) texts
      = .ok (texts.map (fun t => some (E t))) := by
  unfold cachedEmbedTexts settingsEnableCache
  by_cases hf : texts.filter (isUncached cacheGet) = []
  · rw [if_pos hf]
    have hall := List.filter_eq_nil_iff.mp hf
    induction texts with
    | nil => rfl
    | cons t rest ih =>
      have ht : ¬(isUncached cacheGet t = true) := hall t (List.mem_cons_self t rest)
      cases hg : cacheGet t with
      | error e => simp [isUncached, hg] at ht
      | ok o =>
        cases o with
        | none => simp [isUncached, hg] at ht
        | some v =>
          simp only [cacheSlots, List.map_cons, hg, hcache t v hg]
          have hrest : ∀ x ∈ rest, ¬(isUncached cacheGet x = true) := by
            intro x hx
            exact hall x (List.mem_cons_of_mem t hx)
          have ihr := ih (by
            rw [List.filter_eq_nil_iff]; exact hrest) hrest
          simpa [cacheSlots] using ihr
  · rw [if_neg hf]
    exact congrArg Except.ok (fillSlots_spec cacheGet E hcache texts)

/-- C10 witness: one hit (with the correct cached value), one read
failure, one miss. -/
theorem claim_c10_embed_texts_positional_witness :
    cachedEmbedTexts settingsEnableCache
      (fun t => if t = "a" then .ok (some [1]) else
        if t = "b" then .error "redis timeout" else .ok none)
      (fun ts => .ok (ts.map (fun t => [(t.length : ℚ)])))
      ["a", "b", "ccc"]
      = .ok [some [1], some [1], some [3]] := by
  have h := claim_c10_embed_texts_positional
    (fun t => if t = "a" then .ok (some [1]) else
      if t = "b" then .error "redis timeout" else .ok none)
    (fun t => [(t.length : ℚ)]) ["a", "b", "ccc"]
    (by
      intro t v hv
      by_cases h1 : t = "a"
      · subst h1
        simp at hv
        subst hv
        decide
      · by_cases h2 : t = "b"
        · subst h2
          simp [h1] at hv
        · simp [h1, h2] at hv)
  rw [h]
  exact congrArg Except.ok (by decide)

/-- One persistence step accounts exactly one chunk and leaves
`total_chunks` untouched. -/
theorem persistStep_counts (persistChunk : String → Except String Unit)
    (r : DocumentIngestionResult) (ce : String × Emb) :
    ((persistStep persistChunk r ce).successful_chunks +
      (persistStep persistChunk r ce).failed_chunks =
      r.successful_chunks + r.failed_chunks + 1) ∧
    (persistStep persistChunk r ce).total_chunks = r.total_chunks := by
  unfold persistStep
  cases persistChunk ce.1 with
  | ok u => exact ⟨by simp; omega, rfl⟩
  | error e => exact ⟨by simp; omega, rfl⟩

/-- The per-chunk persistence fold accounts every chunk of the batch
exactly once (as a success or a failure) and leaves `total_chunks`
untouched. -/
theorem persistFold_counts (persistChunk : String → Except String Unit) :
    ∀ (l : List (String × Emb)) (r : DocumentIngestionResult),
      ((l.foldl (persistStep persistChunk) r).successful_chunks +
        (l.foldl (persistStep persistChunk) r).failed_chunks =
        r.successful_chunks + r.failed_chunks + l.length) ∧
      (l.foldl (persistStep persistChunk) r).total_chunks = r.total_chunks := by
  intro l
  induction l with
  | nil => intro r; simp
  | cons ce rest ih =>
    intro r
    simp only [List.foldl_cons, List.length_cons]
    rcases ih (persistStep persistChunk r ce) with ⟨h1, h2⟩
    rcases persistStep_counts persistChunk r ce with ⟨h3, h4⟩
    exact ⟨by rw [h1, h3]; omega, by rw [h2, h4]⟩

/-- One batch accounts its own chunks — `batch.length` many on an
embedding failure, one per chunk through the persistence fold otherwise —
plus, when the post-loop commit fails, `batch.length` extra failed chunks
on top of the already-counted successes (`batchExtraCount`). -/
theorem processChunkBatch_counts
    (embedTexts : List String → Except String (List Emb))
    (persistChunk : String → Except String Unit)
    (commitBatch : List String → Except String Unit)
    (h : ∀ ts embs, embedTexts ts = .ok embs → embs.length = ts.length)
    (batch : List String) (r : DocumentIngestionResult) :
    ((processChunkBatch embedTexts persistChunk commitBatch batch
        r).successful_chunks +
      (processChunkBatch embedTexts persistChunk commitBatch batch
        r).failed_chunks =
      r.successful_chunks + r.failed_chunks + batch.length +
        batchExtraCount embedTexts commitBatch batch) ∧
    (processChunkBatch embedTexts persistChunk commitBatch batch
        r).total_chunks = r.total_chunks := by
  cases he : embedTexts batch with
  | error e =>
    have heq : processChunkBatch embedTexts persistChunk commitBatch batch r =
        { r with
          failed_chunks := r.failed_chunks + batch.length,
          errors := r.errors ++ ["Batch processing error: " ++ e] } := by
      unfold processChunkBatch
      rw [he]
    have hx : batchExtraCount embedTexts commitBatch batch = 0 := by
      unfold batchExtraCount
      rw [he]
    rw [hx]
    simp only [heq]
    exact ⟨by omega, trivial⟩
  | ok embs =>
    rcases persistFold_counts persistChunk (batch.zip embs) r with ⟨h1, h2⟩
    have hlen : (batch.zip embs).length = batch.length := by
      rw [List.length_zip, h batch embs he, Nat.min_self]
    rw [hlen] at h1
    cases hc : commitBatch batch with
    | ok u =>
      have heq : processChunkBatch embedTexts persistChunk commitBatch batch r =
          (batch.zip embs).foldl (persistStep persistChunk) r := by
        unfold processChunkBatch
        rw [he, hc]
      have hx : batchExtraCount embedTexts commitBatch batch = 0 := by
        unfold batchExtraCount
        rw [he, hc]
      rw [hx]
      simp only [heq]
      exact ⟨by omega, h2⟩
    | error e =>
      have heq : processChunkBatch embedTexts persistChunk commitBatch batch r =
          { (batch.zip embs).foldl (persistStep persistChunk) r with
            failed_chunks :=
              ((batch.zip embs).foldl (persistStep persistChunk)
                r).failed_chunks + batch.length,
            errors :=
              ((batch.zip embs).foldl (persistStep persistChunk)
                r).errors ++ ["Batch processing error: " ++ e] } := by
        unfold processChunkBatch
        rw [he, hc]
      have hx : batchExtraCount embedTexts commitBatch batch = batch.length := by
        unfold batchExtraCount
        rw [he, hc]
      rw [hx]
      simp only [heq]
      exact ⟨by omega, h2⟩

/-- Folding batches accumulates the counts batch by batch: every chunk of
every batch is accounted once, plus the double-counts of batches whose
commit failed. -/
theorem batchFold_counts
    (embedTexts : List String → Except String (List Emb))
    (persistChunk : String → Except String Unit)
    (commitBatch : List String → Except String Unit)
    (h : ∀ ts embs, embedTexts ts = .ok embs → embs.length = ts.length) :
    ∀ (bs : List (List String)) (r : DocumentIngestionResult),
      ((bs.foldl
          (fun r b => processChunkBatch embedTexts persistChunk commitBatch b r)
          r).successful_chunks +
        (bs.foldl
          (fun r b => processChunkBatch embedTexts persistChunk commitBatch b r)
          r).failed_chunks =
        r.successful_chunks + r.failed_chunks + (bs.map List.length).sum +
          (bs.map (batchExtraCount embedTexts commitBatch)).sum) ∧
      (bs.foldl
          (fun r b => processChunkBatch embedTexts persistChunk commitBatch b r)
          r).total_chunks = r.total_chunks := by
  intro bs
  induction bs with
  | nil => intro r; simp
  | cons b rest ih =>
    intro r
    simp only [List.foldl_cons, List.map_cons, List.sum_cons]
    rcases ih (processChunkBatch embedTexts persistChunk commitBatch b r)
      with ⟨h1, h2⟩
    rcases processChunkBatch_counts embedTexts persistChunk commitBatch h b r
      with ⟨h3, h4⟩
    exact ⟨by rw [h1, h3]; omega, by rw [h2, h4]⟩

/-- The batch slicing loop loses no chunk: concatenating the batches gives
back the chunk list. -/
theorem toBatchesAux_join (n : Nat) :
    ∀ (fuel : Nat) (l : List String), l.length ≤ fuel →
      (toBatchesAux n fuel l).flatten = l := by
  intro fuel
  induction fuel with
  | zero =>
    intro l hl
    cases l with
    | nil => rfl
    | cons x xs => simp at hl
  | succ fuel ih =>
    intro l hl
    cases l with
    | nil => rfl
    | cons x xs =>
      simp only [toBatchesAux, List.flatten_cons]
      have hd : (xs.drop (n - 1)).length ≤ fuel := by
        have := List.length_drop (n - 1) xs
        simp only [List.length_cons] at hl
        omega
      rw [ih (xs.drop (n - 1)) hd]
      simp [List.take_append_drop]

/-- When every batch commit succeeds, no batch is double-counted. -/
theorem batchExtraCount_eq_zero
    (embedTexts : List String → Except String (List Emb))
    (commitBatch : List String → Except String Unit)
    (hc : ∀ ts, commitBatch ts = .ok ()) (b : List String) :
    batchExtraCount embedTexts commitBatch b = 0 := by
  unfold batchExtraCount
  cases embedTexts b <;> rw [hc b]

/-- C1 (amended): a single-item embedding failure inside a batch fails the
whole batch's embedding call, so all of the batch's chunks are marked
failed (for the 3-chunk scenario: `failed_chunks = 3`,
`successful_chunks = 0`), and ingestion never raises.  In general a
failing batch contributes only its own chunks and processing continues
with the remaining batches; the exact accounting is
`successful_chunks + failed_chunks = total_chunks + Σ (size of batches
whose post-loop db.commit fails)` — a commit failure re-counts the whole
batch as failed after its successes were counted, so the counters can
exceed `total_chunks`; when every commit succeeds,
`successful_chunks + failed_chunks = total_chunks`. -/
theorem claim_c1_batch_failure_policy :
    (∀ (embedTexts : List String → Except String (List Emb))
       (persistChunk : String → Except String Unit)
       (commitBatch : List String → Except String Unit) (chunks : List String),
      (∀ ts embs, embedTexts ts = .ok embs → embs.length = ts.length) →
      (ingestChunks embedTexts persistChunk commitBatch
          chunks).successful_chunks +
        (ingestChunks embedTexts persistChunk commitBatch
          chunks).failed_chunks =
        chunks.length +
          ((toBatches 10 chunks).map
            (batchExtraCount embedTexts commitBatch)).sum ∧
      (ingestChunks embedTexts persistChunk commitBatch chunks).total_chunks =
        chunks.length) ∧
    (∀ (embedTexts : List String → Except String (List Emb))
       (persistChunk : String → Except String Unit)
       (commitBatch : List String → Except String Unit) (chunks : List String),
      (∀ ts embs, embedTexts ts = .ok embs → embs.length = ts.length) →
      (∀ ts, commitBatch ts = .ok ()) →
      (ingestChunks embedTexts persistChunk commitBatch
          chunks).successful_chunks +
        (ingestChunks embedTexts persistChunk commitBatch
          chunks).failed_chunks = chunks.length) ∧
    (∀ (f : String → Except String Emb)
       (persistChunk : String → Except String Unit)
       (commitBatch : List String → Except String Unit) (c1 c2 c3 e : String),
      f c2 = .error e →
      (ingestChunks (gatherEmbed f) persistChunk commitBatch
          [c1, c2, c3]).failed_chunks = 3 ∧
      (ingestChunks (gatherEmbed f) persistChunk commitBatch
          [c1, c2, c3]).successful_chunks = 0) := by
  have main : ∀ (embedTexts : List String → Except String (List Emb))
      (persistChunk : String → Except String Unit)
      (commitBatch : List String → Except String Unit) (chunks : List String),
      (∀ ts embs, embedTexts ts = .ok embs → embs.length = ts.length) →
      (ingestChunks embedTexts persistChunk commitBatch
          chunks).successful_chunks +
        (ingestChunks embedTexts persistChunk commitBatch
          chunks).failed_chunks =
        chunks.length +
          ((toBatches 10 chunks).map
            (batchExtraCount embedTexts commitBatch)).sum ∧
      (ingestChunks embedTexts persistChunk commitBatch chunks).total_chunks =
        chunks.length := by
    intro embedTexts persistChunk commitBatch chunks h
    unfold ingestChunks
    rcases batchFold_counts embedTexts persistChunk commitBatch h
      (toBatches 10 chunks)
      { total_documents := 1, total_chunks := chunks.length } with ⟨h1, h2⟩
    have hsum : ((toBatches 10 chunks).map List.length).sum = chunks.length := by
      have hj := toBatchesAux_join 10 chunks.length chunks le_rfl
      calc ((toBatches 10 chunks).map List.length).sum
        = ((toBatches 10 chunks).flatten).length := (List.length_flatten _).symm
        _ = chunks.length := by rw [toBatches, hj]
    constructor
    · rw [h1, hsum]; simp
    · rw [h2]
  refine ⟨main, ?_, ?_⟩
  · intro embedTexts persistChunk commitBatch chunks h hcommit
    have h1 := (main embedTexts persistChunk commitBatch chunks h).1
    have hz : ((toBatches 10 chunks).map
        (batchExtraCount embedTexts commitBatch)).sum = 0 := by
      apply List.sum_eq_zero
      intro x hx
      rcases List.mem_map.mp hx with ⟨b, _, rfl⟩
      exact batchExtraCount_eq_zero embedTexts commitBatch hcommit b
    rw [h1, hz]
    omega
  · intro f persistChunk commitBatch c1 c2 c3 e hf
    have hb : toBatches 10 [c1, c2, c3] = [[c1, c2, c3]] := rfl
    have hg : ∃ e', gatherEmbed f [c1, c2, c3] = .error e' := by
      cases hf1 : f c1 with
      | error e1 => exact ⟨e1, by simp [gatherEmbed, hf1]⟩
      | ok v1 => exact ⟨e, by simp [gatherEmbed, hf1, hf]⟩
    rcases hg with ⟨e', hg⟩
    unfold ingestChunks
    rw [hb]
    simp only [List.foldl_cons, List.foldl_nil]
    unfold processChunkBatch
    rw [hg]
    exact ⟨rfl, rfl⟩

/-- C1 witness: a concrete provider failing on the middle item of a
3-chunk batch gives 3 failed and 0 successful chunks. -/
theorem claim_c1_batch_failure_policy_witness :
    (ingestChunks (gatherEmbed (fun t => if t = "y" then .error "boom" else .ok [2]))
        (fun _ => .ok ()) (fun _ => .ok ()) ["x", "y", "z"]).failed_chunks = 3 ∧
    (ingestChunks (gatherEmbed (fun t => if t = "y" then .error "boom" else .ok [2]))
        (fun _ => .ok ()) (fun _ => .ok ()) ["x", "y", "z"]).successful_chunks
      = 0 :=
  claim_c1_batch_failure_policy.2.2
    (fun t => if t = "y" then .error "boom" else .ok [2])
    (fun _ => .ok ()) (fun _ => .ok ()) "x" "y" "z" "boom" (by simp)

/-- C1 counterexample: the spec scenario claims `failed_chunks == 1` and
`successful_chunks == 2` when the provider fails on one call of a 3-item
batch; the code marks the whole batch failed (3 failed, 0 successful),
because `embed_texts` raises for the batch as a whole. -/
theorem claim_c1_counterexample :
    (ingestChunks
        (gatherEmbed (fun t => if t = "b" then .error "provider failure" else .ok [1]))
        (fun _ => .ok ()) (fun _ => .ok ()) ["a", "b", "c"]).failed_chunks = 3 ∧
    (ingestChunks
        (gatherEmbed (fun t => if t = "b" then .error "provider failure" else .ok [1]))
        (fun _ => .ok ()) (fun _ => .ok ()) ["a", "b", "c"]).successful_chunks
      = 0 ∧
    ¬((ingestChunks
        (gatherEmbed (fun t => if t = "b" then .error "provider failure" else .ok [1]))
        (fun _ => .ok ()) (fun _ => .ok ()) ["a", "b", "c"]).failed_chunks = 1 ∧
      (ingestChunks
        (gatherEmbed (fun t => if t = "b" then .error "provider failure" else .ok [1]))
        (fun _ => .ok ()) (fun _ => .ok ()) ["a", "b", "c"]).successful_chunks
        = 2) := by
  decide

/-- The start value of a `max` fold bounds from below. -/
theorem le_foldl_max (xs : List ℚ) : ∀ a : ℚ, a ≤ xs.foldl max a := by
  induction xs with
  | nil => intro a; exact le_rfl
  | cons y ys ih =>
    intro a
    exact le_trans (le_max_left a y) (ih (max a y))

/-- Every member of the list bounds a `max` fold from below. -/
theorem mem_le_foldl_max (xs : List ℚ) :
    ∀ (a x : ℚ), x ∈ xs → x ≤ xs.foldl max a := by
  induction xs with
  | nil => intro a x h; cases h
  | cons y ys ih =>
    intro a x h
    rw [List.mem_cons] at h
    rcases h with h | h
    · subst h
      exact le_trans (le_max_right a x) (le_foldl_max ys (max a x))
    · exact ih (max a y) x h

/-- `listMax` dominates every member. -/
theorem le_listMax (l : List ℚ) (x : ℚ) (h : x ∈ l) : x ≤ listMax l := by
  cases l with
  | nil => cases h
  | cons y ys =>
    rw [List.mem_cons] at h
    rcases h with h | h
    · subst h; exact le_foldl_max ys x
    · exact mem_le_foldl_max ys y x h

/-- C4 counterexample: with `vector_weight=1, keyword_weight=0` and a pool
whose vector scores are all negative (score `1 - cosine_distance` with
distances above 1), normalising by the (negative) maximum flips the order:
`search` ranks `d1` (raw −1/2) above `d2` (raw −1/5), while the pure
vector ranking is the reverse.  The symmetric keyword case fails the same
way (BM25 scores can be negative). -/
theorem claim_c4_counterexample :
    ((hybridSearch 1 0 [("d1", -1/2), ("d2", -1/5)] [] 2).map
      (fun r => r.document_id)) = ["d1", "d2"] ∧
    pureRanking [("d1", -1/2), ("d2", -1/5)] = ["d2", "d1"] := by
  constructor
  · simp [hybridSearch, combineResults, allIds, dedupIds, maxScore, dictValues,
      lookupLast, listMax, normWeights, sortByCombined, insertDesc,
      insertDescPair, max_def]
    norm_num
  · simp [pureRanking, insertDescPair]
    norm_num

/-- C4 (amended): provided the maximum raw score of the active signal is
positive, the pure-weight configurations rank exactly like the raw signal:
with weights `(1, 0)` the combined scores compare exactly as the raw
vector scores of the candidates do, and symmetrically for `(0, 1)` with
the raw keyword scores.  (When the maximum is negative — possible for both
signals — the division flips the order and the claim fails.) -/
theorem claim_c4_pure_weight_ranking (vres kres : List (String × ℚ)) :
    (normWeights 1 0 = (1, 0) ∧ normWeights 0 1 = (0, 1)) ∧
    (∀ a b : CombinedResult, 0 < maxScore vres →
      a ∈ combineResults 1 0 vres kres → b ∈ combineResults 1 0 vres kres →
      (a.combined_score ≤ b.combined_score ↔
        (lookupLast vres a.document_id).getD 0 ≤
          (lookupLast vres b.document_id).getD 0)) ∧
    (∀ a b : CombinedResult, 0 < maxScore kres →
      a ∈ combineResults 0 1 vres kres → b ∈ combineResults 0 1 vres kres →
      (a.combined_score ≤ b.combined_score ↔
        (lookupLast kres a.document_id).getD 0 ≤
          (lookupLast kres b.document_id).getD 0)) := by
  refine ⟨⟨by norm_num [normWeights], by norm_num [normWeights]⟩, ?_, ?_⟩
  · intro a b hmax ha hb
    rcases List.mem_map.mp ha with ⟨ia, _, rfl⟩
    rcases List.mem_map.mp hb with ⟨ib, _, rfl⟩
    simp only [one_mul, zero_mul, add_zero]
    exact div_le_div_iff_of_pos_right hmax
  · intro a b hmax ha hb
    rcases List.mem_map.mp ha with ⟨ia, _, rfl⟩
    rcases List.mem_map.mp hb with ⟨ib, _, rfl⟩
    simp only [one_mul, zero_mul, zero_add]
    exact div_le_div_iff_of_pos_right hmax

/-- C4 witness: with positive scores the order of combined scores matches
the raw vector order. -/
theorem claim_c4_pure_weight_ranking_witness :
    ({ document_id := "d2", vector_score := 1/2, keyword_score := 0,
       combined_score := 1/2 } : CombinedResult).combined_score ≤
      ({ document_id := "d1", vector_score := 1, keyword_score := 0,
         combined_score := 1 } : CombinedResult).combined_score ↔
    (lookupLast [("d1", 1/2), ("d2", 1/4)] "d2").getD 0 ≤
      (lookupLast [("d1", 1/2), ("d2", 1/4)] "d1").getD 0 :=
  (claim_c4_pure_weight_ranking [("d1", 1/2), ("d2", 1/4)] []).2.1
    { document_id := "d2", vector_score := 1/2, keyword_score := 0,
      combined_score := 1/2 }
    { document_id := "d1", vector_score := 1, keyword_score := 0,
      combined_score := 1 }
    (by
      simp [maxScore, dictValues, dedupIds, lookupLast, listMax, max_def]
      norm_num)
    (by
      simp [combineResults, allIds, dedupIds, maxScore, dictValues, lookupLast,
        listMax, max_def]
      norm_num)
    (by
      simp [combineResults, allIds, dedupIds, maxScore, dictValues, lookupLast,
        listMax, max_def]
      norm_num)

/-- C5: with non-empty result sets, each signal is normalised by its own
maximum (`maxScore` is the maximum of the score dict's values, which
dominates every candidate's score; a document missing from one list gets 0
for that signal via `getD 0`), and every combined result's score is
`vw' * norm_vector + kw' * norm_keyword` with the constructor-renormalised
weights summing to 1. -/
theorem claim_c5_normalized_blend (vw kw : ℚ) (vres kres : List (String × ℚ))
    (hv : vres ≠ []) (hk : kres ≠ []) (hw : vw + kw ≠ 0) :
    ((normWeights vw kw).1 + (normWeights vw kw).2 = 1) ∧
    (maxScore vres = listMax (dictValues vres) ∧
      maxScore kres = listMax (dictValues kres)) ∧
    (∀ id ∈ dedupIds (vres.map Prod.fst),
      (lookupLast vres id).getD 0 ≤ maxScore vres) ∧
    (∀ id ∈ dedupIds (kres.map Prod.fst),
      (lookupLast kres id).getD 0 ≤ maxScore kres) ∧
    (∀ r ∈ combineResults (normWeights vw kw).1 (normWeights vw kw).2 vres kres,
      r.vector_score = (lookupLast vres r.document_id).getD 0 / maxScore vres ∧
      r.keyword_score = (lookupLast kres r.document_id).getD 0 / maxScore kres ∧
      r.combined_score =
        (normWeights vw kw).1 * r.vector_score +
          (normWeights vw kw).2 * r.keyword_score) := by
  refine ⟨?_, ⟨by rw [maxScore, if_neg hv], by rw [maxScore, if_neg hk]⟩, ?_, ?_, ?_⟩
  · unfold normWeights
    by_cases h1 : vw + kw = 1
    · rw [if_pos h1]; exact h1
    · rw [if_neg h1]
      field_simp
  · intro id hid
    rw [maxScore, if_neg hv]
    exact le_listMax _ _ (List.mem_map_of_mem _ hid)
  · intro id hid
    rw [maxScore, if_neg hk]
    exact le_listMax _ _ (List.mem_map_of_mem _ hid)
  · intro r hr
    rcases List.mem_map.mp hr with ⟨id, _, rfl⟩
    exact ⟨rfl, rfl, rfl⟩

/-- C5 witness: weights (2, 1) renormalise to (2/3, 1/3), which sum to 1,
at concrete non-empty result lists. -/
theorem claim_c5_normalized_blend_witness :
    (normWeights 2 1).1 + (normWeights 2 1).2 = 1 :=
  (claim_c5_normalized_blend 2 1 [("a", 1)] [("b", 2)]
    (by simp) (by simp) (by norm_num)).1

/-- In the sentence loop, `min_chunk_size` is consulted only when emitting
the trailing remainder: the run with threshold `m` either equals the run
with threshold 0, or differs from it exactly by one dropped final chunk
whose token count is below `m`. -/
theorem sentenceLoop_min_only_final (tok : String → Nat) (cs ov m : Nat) :
    ∀ (sents chunks cur : List String) (ct : Nat),
      sentenceLoop tok cs ov m sents chunks cur ct =
        sentenceLoop tok cs ov 0 sents chunks cur ct ∨
      ∃ t, tok t < m ∧
        sentenceLoop tok cs ov 0 sents chunks cur ct =
          sentenceLoop tok cs ov m sents chunks cur ct ++ [t] := by
  intro sents
  induction sents with
  | nil =>
    intro chunks cur ct
    by_cases hcur : cur = []
    · left; simp [sentenceLoop, hcur]
    · by_cases hm : m ≤ tok (joinSp cur)
      · left; simp [sentenceLoop, hcur, hm]
      · right
        exact ⟨joinSp cur, Nat.lt_of_not_le hm, by simp [sentenceLoop, hcur, hm]⟩
  | cons s rest ih =>
    intro chunks cur ct
    simp only [sentenceLoop]
    split_ifs with h1 h2 h3
    · exact ih _ _ _
    · exact ih _ _ _
    · exact ih _ _ _
    · exact ih _ _ _

/-- In the paragraph loop, as long as no paragraph is oversized (so the
inner sentence chunker is never invoked), `min_chunk_size` is likewise
consulted only for the trailing remainder. -/
theorem semanticLoop_min_only_final (tok : String → Nat)
    (sentTok : String → List String) (cs ov m : Nat) :
    ∀ (paras chunks cur : List String) (ct : Nat),
      (∀ p ∈ paras, tok (pyStrip p) ≤ cs) →
      semanticLoop tok sentTok cs ov m paras chunks cur ct =
        semanticLoop tok sentTok cs ov 0 paras chunks cur ct ∨
      ∃ t, tok t < m ∧
        semanticLoop tok sentTok cs ov 0 paras chunks cur ct =
          semanticLoop tok sentTok cs ov m paras chunks cur ct ++ [t] := by
  intro paras
  induction paras with
  | nil =>
    intro chunks cur ct _
    by_cases hcur : cur = []
    · left; simp [semanticLoop, hcur]
    · by_cases hm : m ≤ tok (joinPara cur)
      · left; simp [semanticLoop, hcur, hm]
      · right
        exact ⟨joinPara cur, Nat.lt_of_not_le hm, by simp [semanticLoop, hcur, hm]⟩
  | cons p rest ih =>
    intro chunks cur ct hsz
    have hp : tok (pyStrip p) ≤ cs := hsz p (List.mem_cons_self p rest)
    have hrest : ∀ q ∈ rest, tok (pyStrip q) ≤ cs := fun q hq =>
      hsz q (List.mem_cons_of_mem p hq)
    simp only [semanticLoop]
    split_ifs with h1 h2 h3
    · exact ih _ _ _ hrest
    · exact absurd h2 (Nat.not_lt.mpr hp)
    · exact ih _ _ _ hrest
    · exact ih _ _ _ hrest

/-- C2 (amended): `min_chunk_size` is applied only as a trailing-remainder
check, never to mid-stream flushes, which may emit below-threshold chunks
at non-final positions (see the counterexample).  For
`SentenceChunker.chunk` the output with threshold `m` is the threshold-0
output minus at most one trailing below-`m` chunk (the dropped remainder);
the same holds for `SemanticChunker.chunk` provided no paragraph exceeds
`chunk_size` — without that proviso it fails, because an oversized
paragraph is delegated to an inner `SentenceChunker` carrying the same
`min_chunk_size`, whose own dropped below-`m` remainder can sit at a
non-final position of the overall output. -/
theorem claim_c2_min_only_final_remainder (tok : String → Nat)
    (sentTok : String → List String) (cs ov m : Nat) :
    (∀ text : String,
      sentenceChunk tok sentTok cs ov m text =
        sentenceChunk tok sentTok cs ov 0 text ∨
      ∃ t, tok t < m ∧
        sentenceChunk tok sentTok cs ov 0 text =
          sentenceChunk tok sentTok cs ov m text ++ [t]) ∧
    (∀ text : String, (∀ p ∈ splitParas text, tok (pyStrip p) ≤ cs) →
      semanticChunk tok sentTok cs ov m text =
        semanticChunk tok sentTok cs ov 0 text ∨
      ∃ t, tok t < m ∧
        semanticChunk tok sentTok cs ov 0 text =
          semanticChunk tok sentTok cs ov m text ++ [t]) := by
  constructor
  · intro text
    exact sentenceLoop_min_only_final tok cs ov m (sentTok text) [] [] 0
  · intro text hsz
    exact semanticLoop_min_only_final tok sentTok cs ov m (splitParas text) [] [] 0 hsz

/-- C2 witness: a two-paragraph text with no oversized paragraph. -/
theorem claim_c2_min_only_final_remainder_witness :
    semanticChunk (fun s => (pySplitWs s).length) (fun _ => []) 20 0 10
        "aa bb\n\ncc dd" =
      semanticChunk (fun s => (pySplitWs s).length) (fun _ => []) 20 0 0
        "aa bb\n\ncc dd" ∨
    ∃ t, (fun s => (pySplitWs s).length) t < 10 ∧
      semanticChunk (fun s => (pySplitWs s).length) (fun _ => []) 20 0 0
          "aa bb\n\ncc dd" =
        semanticChunk (fun s => (pySplitWs s).length) (fun _ => []) 20 0 10
            "aa bb\n\ncc dd" ++ [t] :=
  (claim_c2_min_only_final_remainder (fun s => (pySplitWs s).length)
    (fun _ => []) 20 0 10).2 "aa bb\n\ncc dd" (by decide)

/-- C2 counterexample: with `chunk_size=20`, `min_chunk_size=10` and a
3-token first sentence followed by a 19-token sentence, the first chunk is
flushed with only 3 tokens — below `min_chunk_size` — and it is not the
final chunk of the returned list (the 19-token final chunk follows it).
The tokenizer is modelled as one token per word; `sent_tokenize` returns
the two sentences of the text. -/
theorem claim_c2_counterexample :
    sentenceChunk (fun s => (pySplitWs s).length)
      (fun _ => ["one two three",
        "b1 b2 b3 b4 b5 b6 b7 b8 b9 b10 b11 b12 b13 b14 b15 b16 b17 b18 b19"])
      20 0 10
      "one two three. b1 b2 b3 b4 b5 b6 b7 b8 b9 b10 b11 b12 b13 b14 b15 b16 b17 b18 b19."
      = ["one two three",
        "b1 b2 b3 b4 b5 b6 b7 b8 b9 b10 b11 b12 b13 b14 b15 b16 b17 b18 b19"] ∧
    (pySplitWs "one two three").length < 10 := by
  decide

/-- Every character of every part produced by the paragraph split comes
from the input (or the pending accumulator): on whitespace-only input all
parts are whitespace-only. -/
theorem splitParasAux_ws :
    ∀ (fuel : Nat) (l acc : List Char),
      (∀ c ∈ l, isPyWs c = true) → (∀ c ∈ acc, isPyWs c = true) →
      ∀ p ∈ splitParasAux fuel l acc, ∀ c ∈ p, isPyWs c = true := by
  intro fuel
  induction fuel with
  | zero =>
    intro l acc hl hacc p hp c hc
    cases l with
    | nil =>
      simp only [splitParasAux, List.mem_singleton] at hp
      subst hp
      exact hacc c (List.mem_reverse.mp hc)
    | cons c0 rest =>
      simp only [splitParasAux, List.mem_singleton] at hp
      subst hp
      rcases List.mem_append.mp hc with h | h
      · exact hacc c (List.mem_reverse.mp h)
      · exact hl c h
  | succ fuel ih =>
    intro l acc hl hacc p hp c hc
    cases l with
    | nil =>
      simp only [splitParasAux, List.mem_singleton] at hp
      subst hp
      exact hacc c (List.mem_reverse.mp hc)
    | cons c0 rest =>
      have hrest : ∀ x ∈ rest, isPyWs x = true := fun x hx =>
        hl x (List.mem_cons_of_mem c0 hx)
      by_cases h0 : c0 = '\n'
      · simp only [splitParasAux, if_pos h0] at hp
        cases hidx : lastNlIdx (rest.takeWhile (isPyWs ·)) with
        | some i =>
          rw [hidx] at hp
          rw [List.mem_cons] at hp
          rcases hp with hp | hp
          · subst hp
            exact hacc c (List.mem_reverse.mp hc)
          · exact ih (rest.drop (i + 1)) []
              (fun x hx => hrest x (List.mem_of_mem_drop hx))
              (fun x hx => absurd hx (List.not_mem_nil x)) p hp c hc
        | none =>
          rw [hidx] at hp
          have hacc2 : ∀ x ∈ c0 :: acc, isPyWs x = true := by
            intro x hx
            rw [List.mem_cons] at hx
            rcases hx with hx | hx
            · subst hx; exact hl _ (List.mem_cons_self _ _)
            · exact hacc x hx
          exact ih rest (c0 :: acc) hrest hacc2 p hp c hc
      · simp only [splitParasAux, if_neg h0] at hp
        have hacc2 : ∀ x ∈ c0 :: acc, isPyWs x = true := by
          intro x hx
          rw [List.mem_cons] at hx
          rcases hx with hx | hx
          · subst hx; exact hl _ (List.mem_cons_self _ _)
          · exact hacc x hx
        exact ih rest (c0 :: acc) hrest hacc2 p hp c hc

/-- Stripping a whitespace-only string yields the empty string. -/
theorem pyStrip_ws (s : String) (h : ∀ c ∈ s.data, isPyWs c = true) :
    pyStrip s = "" := by
  unfold pyStrip
  have h1 : s.data.dropWhile (isPyWs ·) = [] :=
    List.dropWhile_eq_nil_iff.mpr (fun x hx => h x hx)
  rw [h1]
  rfl

/-- The paragraph loop skips every paragraph that strips to empty, with an
empty pending chunk this produces exactly the incoming chunk list. -/
theorem semanticLoop_all_stripped (tok : String → Nat)
    (sentTok : String → List String) (cs ov m : Nat) :
    ∀ (paras chunks : List String) (ct : Nat),
      (∀ p ∈ paras, pyStrip p = "") →
      semanticLoop tok sentTok cs ov m paras chunks [] ct = chunks := by
  intro paras
  induction paras with
  | nil => intro chunks ct _; simp [semanticLoop]
  | cons p rest ih =>
    intro chunks ct h
    have hp : pyStrip p = "" := h p (List.mem_cons_self p rest)
    rw [show semanticLoop tok sentTok cs ov m (p :: rest) chunks [] ct =
        if pyStrip p = "" then semanticLoop tok sentTok cs ov m rest chunks [] ct
        else if cs < tok (pyStrip p) then
          semanticLoop tok sentTok cs ov m rest
            (flushPara chunks [] ++
              sentenceLoop tok cs ov m (sentTok (pyStrip p)) [] [] 0) [] 0
        else if cs < ct + tok (pyStrip p) then
          semanticLoop tok sentTok cs ov m rest (flushPara chunks [])
            [pyStrip p] (tok (pyStrip p))
        else semanticLoop tok sentTok cs ov m rest chunks ([] ++ [pyStrip p])
          (ct + tok (pyStrip p)) from rfl, if_pos hp]
    exact ih chunks ct (fun q hq => h q (List.mem_cons_of_mem p hq))

/-- `str.split('\n')` never yields an empty list. -/
theorem splitNlAux_ne_nil : ∀ (l cur : List Char), splitNlAux l cur ≠ [] := by
  intro l
  induction l with
  | nil => intro cur; simp [splitNlAux]
  | cons c rest ih =>
    intro cur
    unfold splitNlAux
    by_cases hc : c = '\n'
    · rw [if_pos hc]
      simp
    · rw [if_neg hc]
      exact ih (c :: cur)

/-- Once a line has been taken into the pending chunk, the line loop can
only ever emit at least that chunk: the result is never empty. -/
theorem codeLinesLoop_ne_nil (tok : String → Nat) (cs : Nat) :
    ∀ (lines cur : List String) (ct : Nat) (acc : List String),
      cur ≠ [] → codeLinesLoop tok cs lines cur ct acc ≠ [] := by
  intro lines
  induction lines with
  | nil =>
    intro cur ct acc hcur
    simp [codeLinesLoop, hcur]
  | cons line rest ih =>
    intro cur ct acc hcur
    unfold codeLinesLoop
    split_ifs with h
    · exact ih [line] _ _ (by simp)
    · exact ih (cur ++ [line]) _ _ (by simp)

/-- C8 (amended): the sentence and semantic strategies return zero chunks
on empty or whitespace-only input (the sentence strategy whenever
`sent_tokenize` yields no sentences, as it does on such input), and do not
fail; but `CodeChunker._chunk_by_lines` — the fallback for non-Python code
— never returns zero chunks: `text.split('\n')` is never empty, so the
pending line list is non-empty at the end and at least one chunk is
emitted on every input; on the empty string the result is exactly one
empty chunk (`''.split('\n') == ['']`). -/
theorem claim_c8_empty_input :
    (∀ (tok : String → Nat) (sentTok : String → List String)
       (cs ov m : Nat) (text : String),
      (∀ c ∈ text.data, isPyWs c = true) →
      semanticChunk tok sentTok cs ov m text = []) ∧
    (∀ (tok : String → Nat) (sentTok : String → List String)
       (cs ov m : Nat) (text : String),
      sentTok text = [] → sentenceChunk tok sentTok cs ov m text = []) ∧
    (∀ (tok : String → Nat) (cs : Nat), codeChunkByLines tok cs "" = [""]) ∧
    (∀ (tok : String → Nat) (cs : Nat) (text : String),
      codeChunkByLines tok cs text ≠ []) := by
  refine ⟨?_, ?_, ?_, ?_⟩
  · intro tok sentTok cs ov m text h
    unfold semanticChunk
    apply semanticLoop_all_stripped
    intro p hp
    rcases List.mem_map.mp hp with ⟨pcs, hpcs, rfl⟩
    exact pyStrip_ws _ (fun c hc =>
      splitParasAux_ws text.data.length text.data [] h
        (fun x hx => absurd hx (List.not_mem_nil x)) pcs hpcs c hc)
  · intro tok sentTok cs ov m text h
    unfold sentenceChunk
    rw [h]
    simp [sentenceLoop]
  · intro tok cs
    show codeLinesLoop tok cs (pySplitNl "") [] 0 [] = [""]
    rw [show pySplitNl "" = [""] from rfl]
    show (if cs < 0 + tok ("" ++ "\n") ∧ ([] : List String) ≠ [] then
        codeLinesLoop tok cs [] [""] (tok ("" ++ "\n")) ([] ++ [joinLines []])
      else codeLinesLoop tok cs [] ([] ++ [""]) (0 + tok ("" ++ "\n")) []) = [""]
    rw [if_neg (by simp)]
    simp only [codeLinesLoop]
    decide
  · intro tok cs text
    show codeLinesLoop tok cs (pySplitNl text) [] 0 [] ≠ []
    cases hl : pySplitNl text with
    | nil => exact absurd hl (splitNlAux_ne_nil text.data [])
    | cons line rest =>
      unfold codeLinesLoop
      rw [if_neg (by simp)]
      exact codeLinesLoop_ne_nil tok cs rest ([] ++ [line]) _ _ (by simp)

/-- C8 witness: a whitespace-only input yields zero chunks from the
semantic strategy. -/
theorem claim_c8_empty_input_witness :
    semanticChunk (fun _ => 1) (fun _ => []) 512 128 100 " \n\t \n " = [] :=
  claim_c8_empty_input.1 (fun _ => 1) (fun _ => []) 512 128 100 " \n\t \n "
    (by decide)

/-- C8 counterexample: `CodeChunker._chunk_by_lines` on the empty string
returns one chunk (the empty chunk), not zero chunks: the claim that every
chunking strategy yields zero chunks on empty input fails for the
line-based code chunker. -/
theorem claim_c8_counterexample :
    codeChunkByLines (fun _ => 1) 512 "" = [""] ∧
    ¬(codeChunkByLines (fun _ => 1) 512 "" = []) := by
  decide

/-- The BM25 per-term denominator is positive for a present term. -/
theorem bm25_denom_pos (k1 b tf dl avg : ℝ) (hk1 : 0 < k1) (hb0 : 0 ≤ b)
    (hb1 : b ≤ 1) (havg : 0 < avg) (htf : 1 ≤ tf) (hdl : 0 ≤ dl) :
    0 < tf + k1 * (1 - b + b * dl / avg) := by
  have h1 : 0 ≤ b * dl / avg := by positivity
  nlinarith

/-- A BM25 term with non-negative IDF is non-negative. -/
theorem bm25_term_nonneg (L k1 b tf dl avg : ℝ) (hL : 0 ≤ L) (hk1 : 0 < k1)
    (hb0 : 0 ≤ b) (hb1 : b ≤ 1) (havg : 0 < avg) (htf : 1 ≤ tf) (hdl : 0 ≤ dl) :
    0 ≤ L * (tf * (k1 + 1)) / (tf + k1 * (1 - b + b * dl / avg)) := by
  apply div_nonneg
  · exact mul_nonneg hL (by nlinarith)
  · exact (bm25_denom_pos k1 b tf dl avg hk1 hb0 hb1 havg htf hdl).le

/-- A BM25 term with non-negative IDF does not decrease when the term
frequency and the document length both grow by one (an extra exact
occurrence of the term), since `tf ≤ dl`. -/
theorem bm25_term_mono (L k1 b tf dl avg : ℝ) (hL : 0 ≤ L) (hk1 : 0 < k1)
    (hb0 : 0 ≤ b) (hb1 : b ≤ 1) (havg : 0 < avg) (htf : 1 ≤ tf) (hdl : tf ≤ dl) :
    L * (tf * (k1 + 1)) / (tf + k1 * (1 - b + b * dl / avg)) ≤
      L * ((tf + 1) * (k1 + 1)) / ((tf + 1) + k1 * (1 - b + b * (dl + 1) / avg)) := by
  have hdl0 : 0 ≤ dl := le_trans (by linarith) hdl
  have hD : 0 < tf + k1 * (1 - b + b * dl / avg) :=
    bm25_denom_pos k1 b tf dl avg hk1 hb0 hb1 havg htf hdl0
  have hD2 : 0 < (tf + 1) + k1 * (1 - b + b * (dl + 1) / avg) :=
    bm25_denom_pos k1 b (tf + 1) (dl + 1) avg hk1 hb0 hb1 havg
      (by linarith) (by linarith)
  rw [div_le_div_iff₀ hD hD2]
  have hY : 0 ≤ k1 * b / avg := by positivity
  have hX : 0 ≤ k1 * (1 - b) := mul_nonneg hk1.le (by linarith)
  have h2 : 0 ≤ k1 * b / avg * (dl - tf) := mul_nonneg hY (by linarith)
  have key : tf * (k1 + 1) * ((tf + 1) + k1 * (1 - b + b * (dl + 1) / avg)) ≤
      (tf + 1) * (k1 + 1) * (tf + k1 * (1 - b + b * dl / avg)) := by
    have expand : (tf + 1) * (k1 + 1) * (tf + k1 * (1 - b + b * dl / avg)) -
        tf * (k1 + 1) * ((tf + 1) + k1 * (1 - b + b * (dl + 1) / avg)) =
        (k1 + 1) * (k1 * (1 - b)) + (k1 + 1) * (k1 * b / avg * (dl - tf)) := by
      ring
    linarith [mul_nonneg (by linarith : (0:ℝ) ≤ k1 + 1) hX,
      mul_nonneg (by linarith : (0:ℝ) ≤ k1 + 1) h2]
  calc L * (tf * (k1 + 1)) * ((tf + 1) + k1 * (1 - b + b * (dl + 1) / avg))
      = L * (tf * (k1 + 1) * ((tf + 1) + k1 * (1 - b + b * (dl + 1) / avg))) := by
        ring
    _ ≤ L * ((tf + 1) * (k1 + 1) * (tf + k1 * (1 - b + b * dl / avg))) :=
        mul_le_mul_of_nonneg_left key hL
    _ = L * ((tf + 1) * (k1 + 1)) * (tf + k1 * (1 - b + b * dl / avg)) := by ring

/-- C3 (amended): for a single query token whose IDF over the candidate
pool is non-negative (`2 * df ≤ N`), a candidate whose token list is the
other's plus one extra exact occurrence of the token never scores lower
under `_calculate_bm25_score` over the same pool.  (When `2 * df > N` the
IDF `log((N - df + 0.5)/(df + 0.5))` is negative and an extra occurrence
can lower the score — see the counterexample; with several query tokens
the longer document also loses score on the other tokens.) -/
theorem claim_c3_bm25_single_token_monotone (k1 b : ℝ) (pool : List String)
    (t c c2 : String)
    (hk1 : 0 < k1) (hb0 : 0 ≤ b) (hb1 : b ≤ 1)
    (havg : 0 < avgDocLen pool)
    (hidf : 2 * docFreq pool t ≤ pool.length)
    (htok : pyTokenize c2 = pyTokenize c ++ [t]) :
    bm25Score k1 b pool [t] c ≤ bm25Score k1 b pool [t] c2 := by
  have havgR : (0:ℝ) < ((avgDocLen pool : ℚ) : ℝ) := by exact_mod_cast havg
  have hL : (0:ℝ) ≤ Real.log (((pool.length : ℝ) - (docFreq pool t : ℝ) + 0.5) /
      ((docFreq pool t : ℝ) + 0.5)) := by
    apply Real.log_nonneg
    rw [le_div_iff₀ (by positivity)]
    have h2 : ((2 * docFreq pool t : ℕ) : ℝ) ≤ ((pool.length : ℕ) : ℝ) := by
      exact_mod_cast hidf
    push_cast at h2 ⊢
    linarith
  unfold bm25Score bm25Term
  rw [htok]
  rw [if_neg (by simp : pyTokenize c ++ [t] ≠ [])]
  simp only [List.foldl_cons, List.foldl_nil, zero_add]
  rw [show (pyTokenize c ++ [t]).count t = (pyTokenize c).count t + 1 from by simp,
    show (pyTokenize c ++ [t]).length = (pyTokenize c).length + 1 from by simp]
  rw [if_neg (Nat.succ_ne_zero _)]
  by_cases hc : pyTokenize c = []
  · rw [if_pos hc, hc]
    simp only [List.count_nil, List.length_nil]
    push_cast
    exact bm25_term_nonneg _ k1 b 1 1 _ hL hk1 hb0 hb1 havgR le_rfl (by norm_num)
  · rw [if_neg hc]
    by_cases htf : (pyTokenize c).count t = 0
    · rw [if_pos htf, htf]
      push_cast
      exact bm25_term_nonneg _ k1 b 1 _ _ hL hk1 hb0 hb1 havgR le_rfl
        (by positivity)
    · rw [if_neg htf]
      push_cast
      have h1 : (1:ℝ) ≤ ((pyTokenize c).count t : ℝ) := by
        exact_mod_cast Nat.one_le_iff_ne_zero.mpr htf
      have h2 : ((pyTokenize c).count t : ℝ) ≤ ((pyTokenize c).length : ℝ) := by
        exact_mod_cast List.count_le_length t (pyTokenize c)
      exact bm25_term_mono _ k1 b _ _ _ hL hk1 hb0 hb1 havgR h1 h2

/-- C3 witness: a 3-document pool in which the query token occurs in one
document (`2·df = 2 ≤ 3 = N`, so the IDF is non-negative), and a candidate
gaining one exact occurrence of the token. -/
theorem claim_c3_bm25_single_token_monotone_witness :
    bm25Score 1.2 0.75 ["hello xyz", "aaa bbb", "ccc ddd"] ["hello"] "foo bar" ≤
      bm25Score 1.2 0.75 ["hello xyz", "aaa bbb", "ccc ddd"] ["hello"]
        "foo bar hello" :=
  claim_c3_bm25_single_token_monotone 1.2 0.75
    ["hello xyz", "aaa bbb", "ccc ddd"] "hello" "foo bar" "foo bar hello"
    (by norm_num) (by norm_num) (by norm_num)
    (by
      unfold avgDocLen
      simp only [List.map_cons, List.map_nil, List.sum_cons, List.sum_nil,
        List.length_cons, List.length_nil,
        show pyTokenize "hello xyz" = ["hello", "xyz"] from by decide,
        show pyTokenize "aaa bbb" = ["aaa", "bbb"] from by decide,
        show pyTokenize "ccc ddd" = ["ccc", "ddd"] from by decide]
      norm_num)
    (by decide) (by decide)

/-- C3 counterexample: over a one-document pool that contains the query
token, `df = N = 1` makes the IDF `log((1 - 1 + 0.5)/(1 + 0.5)) =
log(1/3) < 0`, so the candidate with one additional exact occurrence of
the query token (`"hello hello aaa bbb"` vs `"hello aaa bbb"`) scores
strictly lower — keyword scoring is not monotone in query-token
occurrences. -/
theorem claim_c3_counterexample :
    bm25Score 1.2 0.75 ["hello xyz"] ["hello"] "hello hello aaa bbb" <
      bm25Score 1.2 0.75 ["hello xyz"] ["hello"] "hello aaa bbb" := by
  have ht1 : pyTokenize "hello aaa bbb" = ["hello", "aaa", "bbb"] := by decide
  have ht2 : pyTokenize "hello hello aaa bbb" =
      ["hello", "hello", "aaa", "bbb"] := by decide
  have havg : avgDocLen ["hello xyz"] = 2 := by
    unfold avgDocLen
    simp only [List.map_cons, List.map_nil, List.sum_cons, List.sum_nil,
      List.length_cons, List.length_nil,
      show pyTokenize "hello xyz" = ["hello", "xyz"] from by decide]
    norm_num
  have hdf : docFreq ["hello xyz"] "hello" = 1 := by decide
  unfold bm25Score bm25Term
  rw [ht1, ht2]
  simp only [List.foldl_cons, List.foldl_nil, hdf, havg]
  have hb : ("bbb":String) ≠ "hello" := by decide
  have ha : ("aaa":String) ≠ "hello" := by decide
  norm_num [List.count_cons, List.count_nil, hb, ha, List.cons_ne_nil]
  have hL : Real.log (1 / 3) < 0 := Real.log_neg (by norm_num) (by norm_num)
  rw [mul_div_assoc, mul_div_assoc]
  exact mul_lt_mul_of_neg_left (by norm_num) hL

/-- C9 (amended): `generate_response` is total (the entire body runs under
one `try`): a completion failure — or any exception reaching the outer
handler — produces the apology text with the error string under the
`'error'` metadata key; a search failure, however, is absorbed inside
`search()` itself, degrading to an empty result list, and the call
proceeds to a normal answer with no error metadata; a successful
completion never carries error metadata. -/
theorem claim_c9_graceful_failure
    (searchOutcome : Except String (List String))
    (completion : Except String String)
    (rich : String → Except String String) :
    (∀ e, completion = .error e →
      generateResponse searchOutcome completion rich =
        { content := apologyText, errorMeta := some e, sourceDocuments := 0 }) ∧
    (∀ e, searchOutcome = .error e →
      generateResponse searchOutcome completion rich =
        generateResponse (.ok []) completion rich) ∧
    (∀ text, completion = .ok text →
      (generateResponse searchOutcome completion rich).errorMeta = none) := by
  refine ⟨?_, ?_, ?_⟩
  · intro e he
    subst he
    rfl
  · intro e he
    subst he
    unfold generateResponse generateResponseBody searchStep
    cases completion with
    | error e2 => rfl
    | ok text => cases rich text <;> rfl
  · intro text ht
    subst ht
    unfold generateResponse generateResponseBody
    cases rich text <;> rfl

/-- C9 witness: a completion failure yields exactly the apology response
with the error recorded in the metadata. -/
theorem claim_c9_graceful_failure_witness :
    generateResponse (.ok ["doc1"]) (.error "llm timeout") (fun s => .ok s) =
      { content := apologyText, errorMeta := some "llm timeout",
        sourceDocuments := 0 } :=
  (claim_c9_graceful_failure (.ok ["doc1"]) (.error "llm timeout")
    (fun s => .ok s)).1 "llm timeout" rfl

/-- C9 counterexample: when the search step fails (e.g. the database query
raises), `generate_response` does NOT return an apology with an error
code: `search()` absorbs the failure and returns no results, and the call
returns a normal completion answer with no error metadata — contradicting
the claim that a failure of the search step yields the apology text with
an error code. -/
theorem claim_c9_counterexample :
    (generateResponse (.error "database connection failed")
        (.ok "Our pricing starts at 49 dollars.") (fun s => .ok s)).errorMeta
      = none ∧
    (generateResponse (.error "database connection failed")
        (.ok "Our pricing starts at 49 dollars.") (fun s => .ok s)).content
      ≠ apologyText := by
  exact ⟨rfl, by decide⟩

end Netvexa
